import Mathlib

/-!
Verification of `src/algorithms/bit_vector.h` (class `bit_vector`).

The C++ class stores bits packed into a `std::vector<unsigned char>`.
We embed it shallowly: `data` is the list of byte values (each store into an
`unsigned char` truncates modulo 256, which the embedding makes explicit),
`num_bits` is the `size_t num_bits` field, and every member function that can
`throw std::out_of_range` is embedded as a function into `Except bv_error`.
Since the embedding is purely functional, `const` member functions
(`test`, `size`, `count`, `to_string`) take the state and return only their
result, which is exactly the "no mutation" part of their contract; a mutator
returns the new state, and a thrown exception returns no state at all, so an
erroneous call leaves the caller's state untouched by construction.
-/

/-- The single error kind of the library: `std::out_of_range`. -/
inductive bv_error where
  | out_of_range
deriving DecidableEq

deriving instance DecidableEq for Except

/-- The state of a `bit_vector` object: the byte buffer
`std::vector<unsigned char> data` and the field `size_t num_bits`. -/
structure bit_vector where
  data : List Nat
  num_bits : Nat
deriving DecidableEq

namespace bit_vector

/-- `static const size_t BITS_PER_BYTE = 8`. -/
def BITS_PER_BYTE : Nat := 8

/-- `bit_vector::bit_vector(size_t size)`:
`data.resize((size + BITS_PER_BYTE - 1) / BITS_PER_BYTE, 0)` on an empty
vector, i.e. the buffer becomes that many zero bytes, and `num_bits = size`. -/
def construct (size : Nat) : bit_vector :=
  { data := List.replicate ((size + BITS_PER_BYTE - 1) / BITS_PER_BYTE) 0
    num_bits := size }

/-- The byte read `data[pos / BITS_PER_BYTE]` (in bounds whenever
`pos < num_bits` and the buffer has its constructed length; `List.getD`
returns 0 past the end, which never happens on the source's executions). -/
def byte_at (v : bit_vector) (pos : Nat) : Nat :=
  v.data.getD (pos / BITS_PER_BYTE) 0

/-- The range-checked bit read shared by `test`, `count` and `to_string`:
`(data[pos / BITS_PER_BYTE] & (1 << (pos % BITS_PER_BYTE))) != 0`.
(`count` and `to_string` call `test(i)` only at `i < num_bits`, where the
range check passes and this expression is what `test` returns.) -/
def test_bit (v : bit_vector) (pos : Nat) : Bool :=
  (v.byte_at pos &&& (1 <<< (pos % BITS_PER_BYTE))) != 0

/-- `void bit_vector::set(size_t pos)`: throws when `pos >= num_bits`, else
`data[pos / BITS_PER_BYTE] |= (1 << (pos % BITS_PER_BYTE))`; the store into
the `unsigned char` element truncates modulo 256. -/
def set (v : bit_vector) (pos : Nat) : Except bv_error bit_vector :=
  if pos ≥ v.num_bits then .error .out_of_range
  else .ok { v with
    data := v.data.set (pos / BITS_PER_BYTE)
      ((v.byte_at pos ||| (1 <<< (pos % BITS_PER_BYTE))) % 256) }

/-- The bit pattern of `~(1 << k)` computed in 32-bit two's-complement `int`
arithmetic, read as a nonnegative number. -/
def compl_mask (k : Nat) : Nat := (2 ^ 32 - 1) ^^^ (1 <<< k)

/-- `void bit_vector::clear(size_t pos)`: throws when `pos >= num_bits`, else
`data[pos / BITS_PER_BYTE] &= ~(1 << (pos % BITS_PER_BYTE))`, the store again
truncating modulo 256. -/
def clear (v : bit_vector) (pos : Nat) : Except bv_error bit_vector :=
  if pos ≥ v.num_bits then .error .out_of_range
  else .ok { v with
    data := v.data.set (pos / BITS_PER_BYTE)
      ((v.byte_at pos &&& compl_mask (pos % BITS_PER_BYTE)) % 256) }

/-- `void bit_vector::toggle(size_t pos)`: throws when `pos >= num_bits`, else
`data[pos / BITS_PER_BYTE] ^= (1 << (pos % BITS_PER_BYTE))`. -/
def toggle (v : bit_vector) (pos : Nat) : Except bv_error bit_vector :=
  if pos ≥ v.num_bits then .error .out_of_range
  else .ok { v with
    data := v.data.set (pos / BITS_PER_BYTE)
      ((v.byte_at pos ^^^ (1 <<< (pos % BITS_PER_BYTE))) % 256) }

/-- `bool bit_vector::test(size_t pos) const`: throws when `pos >= num_bits`,
else returns `(data[pos / BITS_PER_BYTE] & (1 << (pos % BITS_PER_BYTE))) != 0`. -/
def test (v : bit_vector) (pos : Nat) : Except bv_error Bool :=
  if pos ≥ v.num_bits then .error .out_of_range
  else .ok (v.test_bit pos)

/-- `size_t bit_vector::size() const`: returns `num_bits`. -/
def size (v : bit_vector) : Nat := v.num_bits

/-- `size_t bit_vector::count() const`: loops `i` from 0 to `num_bits - 1`
and counts the positions where `test(i)` is true. -/
def count (v : bit_vector) : Nat :=
  (List.range v.num_bits).countP (fun i => v.test_bit i)

/-- `std::string bit_vector::to_string() const`: appends, for `i` from 0 to
`num_bits - 1`, the character `'1'` if `test(i)` else `'0'`. -/
def to_string (v : bit_vector) : String :=
  String.mk ((List.range v.num_bits).map (fun i => if v.test_bit i then '1' else '0'))

/-- The states an object of the class can be in: freshly constructed, or the
result of a successful mutator call on a reachable state. (`test`, `size`,
`count` and `to_string` are `const` and return no state, and a throwing
mutator returns no state either, so neither adds reachable states.) -/
inductive reachable : bit_vector → Prop
  | construct (size : Nat) : reachable (construct size)
  | set {v w : bit_vector} {pos : Nat} :
      reachable v → bit_vector.set v pos = .ok w → reachable w
  | clear {v w : bit_vector} {pos : Nat} :
      reachable v → bit_vector.clear v pos = .ok w → reachable w
  | toggle {v w : bit_vector} {pos : Nat} :
      reachable v → bit_vector.toggle v pos = .ok w → reachable w

/-- Structural invariant of the class: the buffer has the length fixed at
construction, every element fits in an `unsigned char`, and every bit at a
position at or past `num_bits` (tail padding included) reads 0. -/
def wf (v : bit_vector) : Prop :=
  v.data.length = (v.num_bits + BITS_PER_BYTE - 1) / BITS_PER_BYTE ∧
  (∀ b ∈ v.data, b < 256) ∧
  (∀ p, v.num_bits ≤ p → v.test_bit p = false)

/-! ### Basic lemmas about the embedding -/

/-- The raw bit read is `Nat.testBit` of the addressed byte at the bit offset. -/
lemma test_bit_eq (v : bit_vector) (pos : Nat) :
    v.test_bit pos = (v.byte_at pos).testBit (pos % BITS_PER_BYTE) := by
  unfold test_bit
  rw [Nat.one_shiftLeft, Nat.and_two_pow]
  cases h : (v.byte_at pos).testBit (pos % BITS_PER_BYTE) <;>
    simp [h, Nat.pos_iff_ne_zero, Nat.pow_eq_zero]

lemma getD_set_self {l : List Nat} {i : Nat} (x : Nat) (h : i < l.length) :
    (l.set i x).getD i 0 = x := by
  simp [List.getD_eq_getElem?_getD, List.getElem?_set_self (by simpa using h)]

lemma getD_set_of_ne {l : List Nat} {i j : Nat} (x : Nat) (h : i ≠ j) :
    (l.set i x).getD j 0 = l.getD j 0 := by
  simp [List.getD_eq_getElem?_getD, List.getElem?_set_ne h]

/-- Two positions in the same byte with distinct bit offsets are distinct. -/
lemma offset_ne {p q : Nat} (hne : p ≠ q)
    (hdiv : p / BITS_PER_BYTE = q / BITS_PER_BYTE) :
    p % BITS_PER_BYTE ≠ q % BITS_PER_BYTE := by
  simp only [BITS_PER_BYTE] at hdiv ⊢
  omega

/-- Anatomy of a successful `set` call. -/
lemma set_ok {v w : bit_vector} {pos : Nat} (h : v.set pos = Except.ok w) :
    pos < v.num_bits ∧ w.num_bits = v.num_bits ∧
    w.data = v.data.set (pos / BITS_PER_BYTE)
      ((v.byte_at pos ||| (1 <<< (pos % BITS_PER_BYTE))) % 256) := by
  unfold set at h
  split at h
  · exact absurd h (by simp)
  · next hlt =>
      refine ⟨by omega, ?_, ?_⟩ <;> cases w <;> cases Except.ok.inj h <;> rfl

/-- Anatomy of a successful `clear` call. -/
lemma clear_ok {v w : bit_vector} {pos : Nat} (h : v.clear pos = Except.ok w) :
    pos < v.num_bits ∧ w.num_bits = v.num_bits ∧
    w.data = v.data.set (pos / BITS_PER_BYTE)
      ((v.byte_at pos &&& compl_mask (pos % BITS_PER_BYTE)) % 256) := by
  unfold clear at h
  split at h
  · exact absurd h (by simp)
  · next hlt =>
      refine ⟨by omega, ?_, ?_⟩ <;> cases w <;> cases Except.ok.inj h <;> rfl

/-- Anatomy of a successful `toggle` call. -/
lemma toggle_ok {v w : bit_vector} {pos : Nat} (h : v.toggle pos = Except.ok w) :
    pos < v.num_bits ∧ w.num_bits = v.num_bits ∧
    w.data = v.data.set (pos / BITS_PER_BYTE)
      ((v.byte_at pos ^^^ (1 <<< (pos % BITS_PER_BYTE))) % 256) := by
  unfold toggle at h
  split at h
  · exact absurd h (by simp)
  · next hlt =>
      refine ⟨by omega, ?_, ?_⟩ <;> cases w <;> cases Except.ok.inj h <;> rfl

lemma getD_of_length_le {l : List Nat} {i : Nat} (h : l.length ≤ i) :
    l.getD i 0 = 0 := by
  simp [List.getD_eq_getElem?_getD, List.getElem?_eq_none h]

lemma set_getD_self {l : List Nat} {i : Nat} (h : i < l.length) :
    l.set i (l.getD i 0) = l := by
  apply List.ext_getElem?
  intro n
  by_cases hn : n = i
  · subst hn
    rw [List.getElem?_set_self h, List.getElem?_eq_getElem h,
      List.getD_eq_getElem?_getD, List.getElem?_eq_getElem h]
    rfl
  · exact List.getElem?_set_ne (fun hh => hn hh.symm)

/-- Effect of the `|=` store on one bit of the updated byte. -/
lemma testBit_or_mod (b k j : Nat) (hj : j < 8) :
    ((b ||| 2 ^ k) % 256).testBit j = (b.testBit j || decide (k = j)) := by
  have h256 : (256 : Nat) = 2 ^ 8 := by norm_num
  rw [h256, Nat.testBit_mod_two_pow]
  simp [hj, Nat.testBit_or, Nat.testBit_two_pow]

/-- Effect of the `^=` store on one bit of the updated byte. -/
lemma testBit_xor_mod (b k j : Nat) (hj : j < 8) :
    ((b ^^^ 2 ^ k) % 256).testBit j = (b.testBit j ^^ decide (k = j)) := by
  have h256 : (256 : Nat) = 2 ^ 8 := by norm_num
  rw [h256, Nat.testBit_mod_two_pow]
  simp [hj, Nat.testBit_xor, Nat.testBit_two_pow]

/-- One bit of the 32-bit pattern of `~(1 << k)`. -/
lemma testBit_compl_mask (k j : Nat) (hj : j < 32) :
    (compl_mask k).testBit j = !decide (k = j) := by
  unfold compl_mask
  rw [Nat.one_shiftLeft, Nat.testBit_xor, Nat.testBit_two_pow_sub_one,
    Nat.testBit_two_pow]
  simp [hj, Bool.true_xor]

/-- Effect of the `&= ~...` store on one bit of the updated byte. -/
lemma testBit_and_mod (b k j : Nat) (hj : j < 8) :
    ((b &&& compl_mask k) % 256).testBit j = (b.testBit j && !decide (k = j)) := by
  have h256 : (256 : Nat) = 2 ^ 8 := by norm_num
  rw [h256, Nat.testBit_mod_two_pow]
  simp [hj, Nat.testBit_and, testBit_compl_mask k j (by omega)]

lemma mod_bpb_lt (pos : Nat) : pos % BITS_PER_BYTE < 8 :=
  Nat.mod_lt pos (by decide)

/-- After a successful `set(pos)` that wrote inside the buffer, bit `pos`
reads 1. -/
lemma test_bit_after_set {v w : bit_vector} {pos : Nat}
    (h : v.set pos = Except.ok w)
    (hlen : pos / BITS_PER_BYTE < v.data.length) : w.test_bit pos = true := by
  obtain ⟨hp, hn, hd⟩ := set_ok h
  rw [test_bit_eq]
  unfold byte_at
  rw [hd, getD_set_self _ hlen, Nat.one_shiftLeft,
    testBit_or_mod _ _ _ (mod_bpb_lt pos)]
  simp

/-- After a successful `clear(pos)` that wrote inside the buffer, bit `pos`
reads 0. -/
lemma test_bit_after_clear {v w : bit_vector} {pos : Nat}
    (h : v.clear pos = Except.ok w)
    (hlen : pos / BITS_PER_BYTE < v.data.length) : w.test_bit pos = false := by
  obtain ⟨hp, hn, hd⟩ := clear_ok h
  rw [test_bit_eq]
  unfold byte_at
  rw [hd, getD_set_self _ hlen,
    testBit_and_mod _ _ _ (mod_bpb_lt pos)]
  simp

/-- After a successful `toggle(pos)` that wrote inside the buffer, bit `pos`
reads its previous negation. -/
lemma test_bit_after_toggle {v w : bit_vector} {pos : Nat}
    (h : v.toggle pos = Except.ok w)
    (hlen : pos / BITS_PER_BYTE < v.data.length) :
    w.test_bit pos = !v.test_bit pos := by
  obtain ⟨hp, hn, hd⟩ := toggle_ok h
  rw [test_bit_eq, test_bit_eq]
  unfold byte_at
  rw [hd, getD_set_self _ hlen, Nat.one_shiftLeft,
    testBit_xor_mod _ _ _ (mod_bpb_lt pos)]
  simp [byte_at, List.getD_eq_getElem?_getD]

/-- A store into the byte of `pos` that leaves every bit offset other than
`pos`'s alone does not change the read of any position `q ≠ pos`. -/
lemma testBit_getD_set_other (l : List Nat) (pos q x : Nat) (hne : q ≠ pos)
    (hx : ∀ j, j < 8 → j ≠ pos % BITS_PER_BYTE →
      x.testBit j = (l.getD (pos / BITS_PER_BYTE) 0).testBit j) :
    ((l.set (pos / BITS_PER_BYTE) x).getD (q / BITS_PER_BYTE) 0).testBit
        (q % BITS_PER_BYTE)
      = (l.getD (q / BITS_PER_BYTE) 0).testBit (q % BITS_PER_BYTE) := by
  by_cases hdiv : pos / BITS_PER_BYTE = q / BITS_PER_BYTE
  · by_cases hlen : pos / BITS_PER_BYTE < l.length
    · rw [← hdiv, getD_set_self _ hlen,
        hx _ (mod_bpb_lt q) (fun hh => offset_ne (Ne.symm hne) hdiv hh.symm)]
    · rw [List.set_eq_of_length_le (by omega)]
  · rw [getD_set_of_ne _ hdiv]

/-- A successful `set(pos)` leaves the read of every position `q ≠ pos`
unchanged. -/
lemma test_bit_after_set_other {v w : bit_vector} {pos q : Nat}
    (h : v.set pos = Except.ok w) (hne : q ≠ pos) :
    w.test_bit q = v.test_bit q := by
  obtain ⟨hp, hn, hd⟩ := set_ok h
  rw [test_bit_eq, test_bit_eq]
  unfold byte_at
  rw [hd]
  apply testBit_getD_set_other _ _ _ _ hne
  intro j hj hjne
  rw [Nat.one_shiftLeft, testBit_or_mod _ _ _ hj]
  simp [byte_at, hjne.symm]

/-- A successful `clear(pos)` leaves the read of every position `q ≠ pos`
unchanged. -/
lemma test_bit_after_clear_other {v w : bit_vector} {pos q : Nat}
    (h : v.clear pos = Except.ok w) (hne : q ≠ pos) :
    w.test_bit q = v.test_bit q := by
  obtain ⟨hp, hn, hd⟩ := clear_ok h
  rw [test_bit_eq, test_bit_eq]
  unfold byte_at
  rw [hd]
  apply testBit_getD_set_other _ _ _ _ hne
  intro j hj hjne
  rw [testBit_and_mod _ _ _ hj]
  simp [byte_at, hjne.symm]

/-- A successful `toggle(pos)` leaves the read of every position `q ≠ pos`
unchanged. -/
lemma test_bit_after_toggle_other {v w : bit_vector} {pos q : Nat}
    (h : v.toggle pos = Except.ok w) (hne : q ≠ pos) :
    w.test_bit q = v.test_bit q := by
  obtain ⟨hp, hn, hd⟩ := toggle_ok h
  rw [test_bit_eq, test_bit_eq]
  unfold byte_at
  rw [hd]
  apply testBit_getD_set_other _ _ _ _ hne
  intro j hj hjne
  rw [Nat.one_shiftLeft, testBit_xor_mod _ _ _ hj]
  simp [byte_at, hjne.symm]

/-- Every bit of a freshly constructed vector reads 0. -/
lemma test_bit_construct (size p : Nat) : (construct size).test_bit p = false := by
  rw [test_bit_eq]
  unfold byte_at construct
  dsimp only
  rw [List.getD_eq_getElem?_getD, List.getElem?_replicate]
  split <;> simp

/-- Under the length invariant, a valid position addresses a byte inside the
buffer. -/
lemma div_lt_length {v : bit_vector} (hwf : wf v) {pos : Nat}
    (hp : pos < v.num_bits) : pos / BITS_PER_BYTE < v.data.length := by
  rw [hwf.1]
  simp only [BITS_PER_BYTE]
  omega

/-- The freshly constructed vector satisfies the structural invariant. -/
lemma construct_wf (size : Nat) : wf (construct size) := by
  refine ⟨by simp [construct], ?_, fun p _ => test_bit_construct size p⟩
  intro b hb
  have hb0 := List.eq_of_mem_replicate hb
  omega

/-- A successful `set` preserves the structural invariant. -/
lemma wf_set {v w : bit_vector} {pos : Nat} (hwf : wf v)
    (h : v.set pos = Except.ok w) : wf w := by
  obtain ⟨hlen, hbytes, hpad⟩ := hwf
  obtain ⟨hp, hn, hd⟩ := set_ok h
  refine ⟨?_, ?_, ?_⟩
  · rw [hd, List.length_set, hn, hlen]
  · intro b hb
    rw [hd] at hb
    rcases List.mem_or_eq_of_mem_set hb with hmem | heq
    · exact hbytes b hmem
    · rw [heq]
      exact Nat.mod_lt _ (by decide)
  · intro p hp2
    rw [test_bit_after_set_other h (by omega)]
    exact hpad p (by omega)

/-- A successful `clear` preserves the structural invariant. -/
lemma wf_clear {v w : bit_vector} {pos : Nat} (hwf : wf v)
    (h : v.clear pos = Except.ok w) : wf w := by
  obtain ⟨hlen, hbytes, hpad⟩ := hwf
  obtain ⟨hp, hn, hd⟩ := clear_ok h
  refine ⟨?_, ?_, ?_⟩
  · rw [hd, List.length_set, hn, hlen]
  · intro b hb
    rw [hd] at hb
    rcases List.mem_or_eq_of_mem_set hb with hmem | heq
    · exact hbytes b hmem
    · rw [heq]
      exact Nat.mod_lt _ (by decide)
  · intro p hp2
    rw [test_bit_after_clear_other h (by omega)]
    exact hpad p (by omega)

/-- A successful `toggle` preserves the structural invariant. -/
lemma wf_toggle {v w : bit_vector} {pos : Nat} (hwf : wf v)
    (h : v.toggle pos = Except.ok w) : wf w := by
  obtain ⟨hlen, hbytes, hpad⟩ := hwf
  obtain ⟨hp, hn, hd⟩ := toggle_ok h
  refine ⟨?_, ?_, ?_⟩
  · rw [hd, List.length_set, hn, hlen]
  · intro b hb
    rw [hd] at hb
    rcases List.mem_or_eq_of_mem_set hb with hmem | heq
    · exact hbytes b hmem
    · rw [heq]
      exact Nat.mod_lt _ (by decide)
  · intro p hp2
    rw [test_bit_after_toggle_other h (by omega)]
    exact hpad p (by omega)

/-- Every reachable state satisfies the structural invariant. -/
lemma reachable_wf {v : bit_vector} (h : reachable v) : wf v := by
  induction h with
  | construct size => exact construct_wf size
  | set hr hok ih => exact wf_set ih hok
  | clear hr hok ih => exact wf_clear ih hok
  | toggle hr hok ih => exact wf_toggle ih hok

/-- Two states with the same fields are the same state. -/
lemma eq_of_fields {u v : bit_vector} (h1 : u.data = v.data)
    (h2 : u.num_bits = v.num_bits) : u = v := by
  cases u
  cases v
  cases h1
  cases h2
  rfl

/-- The explicit result of `set` on an in-range position. -/
lemma set_eq_ok_of_lt {v : bit_vector} {pos : Nat} (hp : pos < v.num_bits) :
    v.set pos = Except.ok { v with
      data := v.data.set (pos / BITS_PER_BYTE)
        ((v.byte_at pos ||| (1 <<< (pos % BITS_PER_BYTE))) % 256) } := by
  unfold set
  rw [if_neg (by omega)]

/-- The explicit result of `clear` on an in-range position. -/
lemma clear_eq_ok_of_lt {v : bit_vector} {pos : Nat} (hp : pos < v.num_bits) :
    v.clear pos = Except.ok { v with
      data := v.data.set (pos / BITS_PER_BYTE)
        ((v.byte_at pos &&& compl_mask (pos % BITS_PER_BYTE)) % 256) } := by
  unfold clear
  rw [if_neg (by omega)]

/-- The explicit result of `toggle` on an in-range position. -/
lemma toggle_eq_ok_of_lt {v : bit_vector} {pos : Nat} (hp : pos < v.num_bits) :
    v.toggle pos = Except.ok { v with
      data := v.data.set (pos / BITS_PER_BYTE)
        ((v.byte_at pos ^^^ (1 <<< (pos % BITS_PER_BYTE))) % 256) } := by
  unfold toggle
  rw [if_neg (by omega)]

/-- `set` succeeds on every in-range position. -/
lemma exists_set_ok {v : bit_vector} {pos : Nat} (hp : pos < v.num_bits) :
    ∃ w, v.set pos = Except.ok w :=
  ⟨_, set_eq_ok_of_lt hp⟩

/-- `clear` succeeds on every in-range position. -/
lemma exists_clear_ok {v : bit_vector} {pos : Nat} (hp : pos < v.num_bits) :
    ∃ w, v.clear pos = Except.ok w :=
  ⟨_, clear_eq_ok_of_lt hp⟩

/-- `toggle` succeeds on every in-range position. -/
lemma exists_toggle_ok {v : bit_vector} {pos : Nat} (hp : pos < v.num_bits) :
    ∃ w, v.toggle pos = Except.ok w :=
  ⟨_, toggle_eq_ok_of_lt hp⟩

/-- On an in-range position, `test` returns the raw bit read. -/
lemma test_eq_ok {v : bit_vector} {pos : Nat} (hp : pos < v.num_bits) :
    v.test pos = Except.ok (v.test_bit pos) := by
  unfold test
  rw [if_neg (by omega)]

/-- The addressed byte of a well-formed state at an in-range position is an
`unsigned char` value. -/
lemma byte_at_lt {v : bit_vector} (hwf : wf v) {pos : Nat}
    (hp : pos < v.num_bits) : v.byte_at pos < 256 := by
  have hlen := div_lt_length hwf hp
  have hmem : v.byte_at pos = v.data.get ⟨pos / BITS_PER_BYTE, hlen⟩ := by
    simp [byte_at, List.getD_eq_getElem?_getD, List.getElem?_eq_getElem hlen]
  rw [hmem]
  exact hwf.2.1 _ (List.get_mem _ _ _)

/-- Toggling the same in-range position twice restores the exact state. -/
lemma toggle_toggle {v w u : bit_vector} {pos : Nat} (hwf : wf v)
    (h1 : v.toggle pos = Except.ok w) (h2 : w.toggle pos = Except.ok u) :
    u = v := by
  obtain ⟨hp, hn, hd⟩ := toggle_ok h1
  obtain ⟨hp2, hn2, hd2⟩ := toggle_ok h2
  have hlen := div_lt_length hwf hp
  have hb : v.byte_at pos < 256 := byte_at_lt hwf hp
  have hk : (2 : Nat) ^ (pos % BITS_PER_BYTE) < 256 := by
    calc (2 : Nat) ^ (pos % BITS_PER_BYTE) ≤ 2 ^ 7 :=
          Nat.pow_le_pow_right (by decide) (by have := mod_bpb_lt pos; omega)
      _ < 256 := by decide
  have hxlt : v.byte_at pos ^^^ 2 ^ (pos % BITS_PER_BYTE) < 256 := by
    have h256 : (256 : Nat) = 2 ^ 8 := by norm_num
    rw [h256] at hb hk ⊢
    exact Nat.xor_lt_two_pow hb hk
  have hwbyte : w.byte_at pos
      = (v.byte_at pos ^^^ 2 ^ (pos % BITS_PER_BYTE)) % 256 := by
    unfold byte_at
    rw [hd, Nat.one_shiftLeft, getD_set_self _ hlen]
    rfl
  apply eq_of_fields
  · rw [hd2, hd, List.set_set, hwbyte, Nat.one_shiftLeft,
      Nat.mod_eq_of_lt hxlt, Nat.xor_assoc, Nat.xor_self, Nat.xor_zero,
      Nat.mod_eq_of_lt hb]
    exact set_getD_self hlen
  · omega

/-! ### The claims -/

/-- Claim C1: for every reachable state, `count()` returns exactly the number
of positions `p` in `[0, capacity)` with `test(p) == true`. (`count` is a
`const` member returning a number, so it cannot change the state; the
embedding reflects this by taking the state and returning only the count.) -/
theorem count_spec (v : bit_vector) (h : reachable v) :
    v.count = (List.range v.size).countP
      (fun p => decide (v.test p = Except.ok true)) := by
  unfold count size
  apply List.countP_congr
  intro p hp
  rw [List.mem_range] at hp
  rw [test_eq_ok hp]
  cases htb : v.test_bit p <;> simp [htb]

theorem count_spec_witness :
    (construct 3).count = (List.range (construct 3).size).countP
      (fun p => decide ((construct 3).test p = Except.ok true)) :=
  count_spec (construct 3) (reachable.construct 3)

/-- Claim C2: for every reachable state, `to_string()` has length exactly
`capacity`, and its character at index `i` (index 0 being the first, leftmost
character of the string) is `'1'` when `test(i) == true` and `'0'` otherwise.
(`to_string` is `const`: in the embedding it takes the state and returns only
the string, so it cannot mutate.) -/
theorem to_string_spec (v : bit_vector) (h : reachable v) :
    (v.to_string).length = v.size ∧
    ∀ i, i < v.size →
      (v.to_string).data[i]?
        = some (if v.test i = Except.ok true then '1' else '0') := by
  constructor
  · simp [to_string, size]
  · intro i hi
    unfold to_string
    show ((List.range v.num_bits).map _)[i]? = _
    rw [List.getElem?_map, List.getElem?_range (show i < v.num_bits from hi)]
    rw [test_eq_ok (show i < v.num_bits from hi)]
    cases htb : v.test_bit i <;> simp [htb]

theorem to_string_spec_witness :
    ((construct 4).to_string).length = (construct 4).size ∧
    ((construct 4).to_string).data[2]?
      = some (if (construct 4).test 2 = Except.ok true then '1' else '0') :=
  ⟨(to_string_spec (construct 4) (reachable.construct 4)).1,
   (to_string_spec (construct 4) (reachable.construct 4)).2 2 (by decide)⟩

/-- Claim C3: on any state of any capacity, each of `set`, `clear`, `toggle`
and `test` at a position `pos >= capacity` throws `std::out_of_range`. In the
embedding a throwing call returns `Except.error` and no state, so the caller's
state — capacity and every bit — is untouched by construction. -/
theorem out_of_range_spec (v : bit_vector) (pos : Nat)
    (h : v.num_bits ≤ pos) :
    v.set pos = Except.error bv_error.out_of_range ∧
    v.clear pos = Except.error bv_error.out_of_range ∧
    v.toggle pos = Except.error bv_error.out_of_range ∧
    v.test pos = Except.error bv_error.out_of_range := by
  refine ⟨?_, ?_, ?_, ?_⟩
  · unfold set
    rw [if_pos (show pos ≥ v.num_bits from h)]
  · unfold clear
    rw [if_pos (show pos ≥ v.num_bits from h)]
  · unfold toggle
    rw [if_pos (show pos ≥ v.num_bits from h)]
  · unfold test
    rw [if_pos (show pos ≥ v.num_bits from h)]

theorem out_of_range_spec_witness :
    (construct 5).set 7 = Except.error bv_error.out_of_range ∧
    (construct 5).clear 7 = Except.error bv_error.out_of_range ∧
    (construct 5).toggle 7 = Except.error bv_error.out_of_range ∧
    (construct 5).test 7 = Except.error bv_error.out_of_range :=
  out_of_range_spec (construct 5) 7 (by decide)

/-- Claim C4: construction succeeds for every capacity (the constructor is a
total function of `size`); the result has `size() == capacity`, a buffer of
`(capacity + 8 - 1) / 8 = ceil(capacity / 8)` bytes all zero, and every
in-range position tests false. -/
theorem construct_spec (capacity : Nat) :
    (construct capacity).size = capacity ∧
    (construct capacity).data.length
      = (capacity + BITS_PER_BYTE - 1) / BITS_PER_BYTE ∧
    (∀ b ∈ (construct capacity).data, b = 0) ∧
    ∀ pos, pos < capacity → (construct capacity).test pos = Except.ok false := by
  refine ⟨rfl, by simp [construct], ?_, ?_⟩
  · intro b hb
    exact List.eq_of_mem_replicate hb
  · intro pos hpos
    rw [test_eq_ok (show pos < (construct capacity).num_bits from hpos),
      test_bit_construct]

theorem construct_spec_witness :
    (construct 10).size = 10 ∧ (construct 10).test 4 = Except.ok false :=
  ⟨(construct_spec 10).1, (construct_spec 10).2.2.2 4 (by decide)⟩

/-- Claim C5: on a reachable state, for any in-range `pos` and regardless of
the bit's prior value, `set(pos)` succeeds and makes `test(pos)` true, and a
subsequent `clear(pos)` succeeds and makes `test(pos)` false. -/
theorem set_clear_spec (v : bit_vector) (pos : Nat) (hr : reachable v)
    (hp : pos < v.num_bits) :
    ∃ w, v.set pos = Except.ok w ∧ w.test pos = Except.ok true ∧
      ∃ u, w.clear pos = Except.ok u ∧ u.test pos = Except.ok false := by
  have hwf := reachable_wf hr
  obtain ⟨w, hw⟩ := exists_set_ok hp
  obtain ⟨hp1, hn1, hdw⟩ := set_ok hw
  have hwwf := wf_set hwf hw
  obtain ⟨u, hu⟩ := exists_clear_ok (show pos < w.num_bits by omega)
  obtain ⟨hp2, hn2, hdu⟩ := clear_ok hu
  refine ⟨w, hw, ?_, u, hu, ?_⟩
  · rw [test_eq_ok (show pos < w.num_bits by omega),
      test_bit_after_set hw (div_lt_length hwf hp)]
  · rw [test_eq_ok (show pos < u.num_bits by omega),
      test_bit_after_clear hu (div_lt_length hwwf (by omega))]

theorem set_clear_spec_witness :
    ∃ w, (construct 1).set 0 = Except.ok w ∧ w.test 0 = Except.ok true ∧
      ∃ u, w.clear 0 = Except.ok u ∧ u.test 0 = Except.ok false :=
  set_clear_spec (construct 1) 0 (reachable.construct 1) (by decide)

/-- Claim C6: on a reachable state, for any in-range `pos`, `toggle(pos)`
succeeds, flips the value read by `test(pos)`, and a second `toggle(pos)`
restores the original state exactly. -/
theorem toggle_spec (v : bit_vector) (pos : Nat) (hr : reachable v)
    (hp : pos < v.num_bits) :
    ∃ w, v.toggle pos = Except.ok w ∧
      w.test pos = Except.map Bool.not (v.test pos) ∧
      w.toggle pos = Except.ok v := by
  have hwf := reachable_wf hr
  obtain ⟨w, hw⟩ := exists_toggle_ok hp
  obtain ⟨hp1, hn1, hdw⟩ := toggle_ok hw
  refine ⟨w, hw, ?_, ?_⟩
  · rw [test_eq_ok (show pos < w.num_bits by omega), test_eq_ok hp,
      test_bit_after_toggle hw (div_lt_length hwf hp)]
    rfl
  · obtain ⟨u, hu⟩ := exists_toggle_ok (show pos < w.num_bits by omega)
    rw [hu, toggle_toggle hwf hw hu]

theorem toggle_spec_witness :
    ∃ w, (construct 2).toggle 1 = Except.ok w ∧
      w.test 1 = Except.map Bool.not ((construct 2).test 1) ∧
      w.toggle 1 = Except.ok (construct 2) :=
  toggle_spec (construct 2) 1 (reachable.construct 2) (by decide)

/-- Claim C7: every reachable state keeps the structural invariants — the
buffer length is `ceil(capacity / 8)` as fixed at construction, every bit at
a position `>= capacity` (the tail padding included) still reads 0, and no
successful mutator changes the capacity. (`test`, `size`, `count` and
`to_string` are `const` members and return no state at all.) -/
theorem invariant_spec (v : bit_vector) (h : reachable v) :
    (v.data.length = (v.num_bits + BITS_PER_BYTE - 1) / BITS_PER_BYTE ∧
      ∀ p, v.num_bits ≤ p → v.test_bit p = false) ∧
    (∀ pos w, v.set pos = Except.ok w → w.num_bits = v.num_bits) ∧
    (∀ pos w, v.clear pos = Except.ok w → w.num_bits = v.num_bits) ∧
    (∀ pos w, v.toggle pos = Except.ok w → w.num_bits = v.num_bits) := by
  have hwf := reachable_wf h
  exact ⟨⟨hwf.1, hwf.2.2⟩,
    fun pos w hw => (set_ok hw).2.1,
    fun pos w hw => (clear_ok hw).2.1,
    fun pos w hw => (toggle_ok hw).2.1⟩

theorem invariant_spec_witness :
    (construct 9).data.length
      = ((construct 9).num_bits + BITS_PER_BYTE - 1) / BITS_PER_BYTE ∧
    (construct 9).test_bit 12 = false :=
  ⟨((invariant_spec (construct 9) (reachable.construct 9)).1).1,
   ((invariant_spec (construct 9) (reachable.construct 9)).1).2 12 (by decide)⟩

/-- Claim C8: the concrete scenario — construct with capacity 10, `set(3)`,
`set(7)`: then `count() == 2`, `to_string() == "0001000100"`,
`test(3) == true` and `test(4) == false`. -/
theorem scenario_ten_spec :
    (((construct 10).set 3).bind (fun v => v.set 7)).map count
      = Except.ok 2 ∧
    (((construct 10).set 3).bind (fun v => v.set 7)).map to_string
      = Except.ok "0001000100" ∧
    (((construct 10).set 3).bind (fun v => v.set 7)).bind (fun v => v.test 3)
      = Except.ok true ∧
    (((construct 10).set 3).bind (fun v => v.set 7)).bind (fun v => v.test 4)
      = Except.ok false := by
  refine ⟨?_, ?_, ?_, ?_⟩ <;> rfl

/-- Claim C9: the empty-vector scenario — construct with capacity 0: then
`size() == 0`, `count() == 0`, `to_string()` is the empty string, and
`set(0)` throws `std::out_of_range` (returning no state, so the state is
untouched). -/
theorem scenario_empty_spec :
    (construct 0).size = 0 ∧ (construct 0).count = 0 ∧
    (construct 0).to_string = "" ∧
    (construct 0).set 0 = Except.error bv_error.out_of_range := by
  refine ⟨rfl, rfl, rfl, rfl⟩

/-- Claim C10: the frame property — on a reachable state, a successful
`set(pos)`, `clear(pos)` or `toggle(pos)` leaves `test(q)` unchanged for
every other in-range position `q ≠ pos` (distinct positions address distinct
(byte, bit-offset) pairs). -/
theorem frame_spec (v : bit_vector) (pos q : Nat) (hr : reachable v)
    (hp : pos < v.num_bits) (hq : q < v.num_bits) (hne : q ≠ pos) :
    (∀ w, v.set pos = Except.ok w → w.test q = v.test q) ∧
    (∀ w, v.clear pos = Except.ok w → w.test q = v.test q) ∧
    (∀ w, v.toggle pos = Except.ok w → w.test q = v.test q) := by
  refine ⟨?_, ?_, ?_⟩
  · intro w hw
    rw [test_eq_ok (show q < w.num_bits by rw [(set_ok hw).2.1]; omega),
      test_eq_ok hq, test_bit_after_set_other hw hne]
  · intro w hw
    rw [test_eq_ok (show q < w.num_bits by rw [(clear_ok hw).2.1]; omega),
      test_eq_ok hq, test_bit_after_clear_other hw hne]
  · intro w hw
    rw [test_eq_ok (show q < w.num_bits by rw [(toggle_ok hw).2.1]; omega),
      test_eq_ok hq, test_bit_after_toggle_other hw hne]

theorem frame_spec_witness :
    (bit_vector.mk [1] 2).test 1 = (construct 2).test 1 :=
  (frame_spec (construct 2) 0 1 (reachable.construct 2) (by decide)
    (by decide) (by decide)).1 (bit_vector.mk [1] 2) (by decide)

end bit_vector
